import Mathlib

/-!
Verification development for the Emogo record capture and sync module.

The definitions below are a shallow embedding of the JavaScript sources:
the commit pipeline `saveLog` and `getLocationForSave` from
`src/app/_test/_index.js`, the export routine `exportLogsAsJson` from
`src/unnamed/part_001`, and the SQLite-backed log table shared by all
variants (schema `logs(id, timestamp, mood, videoUri, lat, lng)` with
`id INTEGER PRIMARY KEY AUTOINCREMENT`).  Machine floats are modelled as
rationals, the SQLite table as a list of rows together with the next
autoincrement id, and the outcome of each awaited platform call
(location fix, INSERT, the two fetch calls) as an explicit environment
value consumed by the pure pipeline function.
-/

namespace Emogo

/-- The two platform classes the sources branch on via `Platform.OS === "web"`. -/
inductive PlatformOS
  | web
  | native
deriving DecidableEq

/-- A latitude/longitude pair as produced by the location provider. -/
structure Coord where
  lat : ℚ
  lng : ℚ
deriving DecidableEq

/-- One row of the `logs` table (and of the in-memory web list):
`id, timestamp, mood, videoUri, lat, lng`. -/
structure LogRecord where
  id : ℕ
  timestamp : String
  mood : ℤ
  videoUri : String
  lat : ℚ
  lng : ℚ
deriving DecidableEq

/-- The SQLite `logs` table: the stored rows in insertion order plus the
next value of the `AUTOINCREMENT` id counter. -/
structure LocalStore where
  rows : List LogRecord
  nextId : ℕ
deriving DecidableEq

/-- `CREATE TABLE IF NOT EXISTS logs (...)` on a fresh database:
no rows, autoincrement ids start at 1. -/
def LocalStore.init : LocalStore := ⟨[], 1⟩

/-- `INSERT INTO logs (timestamp, mood, videoUri, lat, lng) VALUES (?,?,?,?,?)`:
SQLite assigns the next autoincrement id and appends the row. -/
def LocalStore.insertLog (s : LocalStore) (timestamp : String) (mood : ℤ)
    (videoUri : String) (lat lng : ℚ) : LocalStore :=
  { rows := s.rows ++ [⟨s.nextId, timestamp, mood, videoUri, lat, lng⟩],
    nextId := s.nextId + 1 }

/-- Result set of `ORDER BY id ASC` over a bag of rows. -/
def sortAscById (l : List LogRecord) : List LogRecord :=
  List.insertionSort (fun a b => a.id ≤ b.id) l

/-- Result set of `ORDER BY id DESC` over a bag of rows. -/
def sortDescById (l : List LogRecord) : List LogRecord :=
  List.insertionSort (fun a b => b.id ≤ a.id) l

/-- `SELECT * FROM logs ORDER BY id ASC;` — the full export read path. -/
def LocalStore.allAsc (s : LocalStore) : List LogRecord :=
  sortAscById s.rows

/-- `SELECT * FROM logs ORDER BY id DESC LIMIT n;` — the recent view. -/
def LocalStore.recentDesc (s : LocalStore) (limit : ℕ) : List LogRecord :=
  (sortDescById s.rows).take limit

/-- `DELETE FROM logs` — with `AUTOINCREMENT`, SQLite keeps the id
counter in `sqlite_sequence`, so ids are not reused after a clear. -/
def LocalStore.clearAll (s : LocalStore) : LocalStore :=
  { rows := [], nextId := s.nextId }

/-- Well-formedness of the table, maintained by SQLite itself: rows are
stored in strictly-ascending id order and every stored id is below the
autoincrement counter. -/
def StoreWF (s : LocalStore) : Prop :=
  s.rows.Pairwise (fun a b => a.id < b.id) ∧ ∀ r ∈ s.rows, r.id < s.nextId

theorem storeWF_init : StoreWF LocalStore.init := by
  constructor
  · exact List.Pairwise.nil
  · intro r hr
    simp [LocalStore.init] at hr

theorem storeWF_insertLog (s : LocalStore) (t : String) (m : ℤ) (v : String)
    (la ln : ℚ) (h : StoreWF s) : StoreWF (s.insertLog t m v la ln) := by
  obtain ⟨hp, hb⟩ := h
  constructor
  · rw [LocalStore.insertLog, List.pairwise_append]
    refine ⟨hp, List.pairwise_singleton _ _, ?_⟩
    intro a ha b hb'
    simp at hb'
    subst hb'
    exact hb a ha
  · intro r hr
    rw [LocalStore.insertLog] at hr
    simp at hr
    rcases hr with hr | hr
    · exact Nat.lt_succ_of_lt (hb r hr)
    · subst hr
      exact Nat.lt_succ_self _

theorem storeWF_clearAll (s : LocalStore) : StoreWF s.clearAll := by
  constructor
  · exact List.Pairwise.nil
  · intro r hr
    simp [LocalStore.clearAll] at hr

theorem sortAscById_of_wf (l : List LogRecord)
    (h : l.Pairwise (fun a b => a.id < b.id)) : sortAscById l = l := by
  apply List.Sorted.insertionSort_eq
  exact h.imp (fun hab => Nat.le_of_lt hab)

theorem orderedInsert_eq_append {r : LogRecord → LogRecord → Prop}
    [DecidableRel r] (a : LogRecord) (l : List LogRecord)
    (h : ∀ b ∈ l, ¬ r a b) : List.orderedInsert r a l = l ++ [a] := by
  induction l with
  | nil => simp [List.orderedInsert]
  | cons b l ih =>
    rw [List.orderedInsert]
    rw [if_neg (h b (List.mem_cons_self b l))]
    rw [ih (fun c hc => h c (List.mem_cons_of_mem b hc))]
    simp

theorem sortDescById_of_wf (l : List LogRecord)
    (h : l.Pairwise (fun a b => a.id < b.id)) : sortDescById l = l.reverse := by
  induction l with
  | nil => rfl
  | cons a l ih =>
    rw [List.pairwise_cons] at h
    obtain ⟨ha, hl⟩ := h
    show List.orderedInsert _ a (sortDescById l) = (a :: l).reverse
    rw [ih hl]
    rw [orderedInsert_eq_append]
    · simp
    · intro b hb
      simp only [List.mem_reverse] at hb
      exact Nat.not_le.mpr (ha b hb)

theorem allAsc_of_wf (s : LocalStore) (h : StoreWF s) : s.allAsc = s.rows :=
  sortAscById_of_wf s.rows h.1

theorem recentDesc_of_wf (s : LocalStore) (limit : ℕ) (h : StoreWF s) :
    s.recentDesc limit = s.rows.reverse.take limit := by
  rw [LocalStore.recentDesc, sortDescById_of_wf s.rows h.1]

/-- Environment consumed by `getLocationForSave` on the native branch:
the `hasLocationPermission` component state, the outcome of
`requestForegroundPermissionsAsync`, and the outcome of
`getCurrentPositionAsync` (`none` models a thrown error, caught by the
surrounding try/catch which returns `null`). -/
structure LocationEnv where
  hasLocationPermission : Bool
  requestGranted : Bool
  fix : Option Coord
deriving DecidableEq

/-- What `getLocationForSave` produced: the returned coordinates
(`none` for the `return null` paths) and whether a permission request
was issued along the way. -/
structure LocationOutcome where
  result : Option Coord
  permissionRequested : Bool
deriving DecidableEq

/-- `getLocationForSave` from `src/app/_test/_index.js` (lines 102-128).
On web it immediately returns the fixed demo coordinates; on native it
checks (and if needed requests) the location permission, then asks for a
fix, returning `null` on denial or on a thrown error. -/
def getLocationForSave (os : PlatformOS) (env : LocationEnv) : LocationOutcome :=
  match os with
  | .web => ⟨some ⟨25.033968, 121.564468⟩, false⟩
  | .native =>
    let requested := !env.hasLocationPermission
    let granted := env.hasLocationPermission || env.requestGranted
    if granted then
      match env.fix with
      | some c => ⟨some c, requested⟩
      | none => ⟨none, requested⟩
    else
      ⟨none, requested⟩

/-- The component state of `EmogoScreen` that the save pipeline reads
and writes: platform, the SQLite handle (`none` when unavailable), the
draft mood, the draft video reference (`none` models a falsy
`videoUri`, i.e. `null` or the empty string), and the on-screen recent
list. -/
structure AppState where
  os : PlatformOS
  db : Option LocalStore
  mood : ℤ
  videoUri : Option String
  logs : List LogRecord
deriving DecidableEq

/-- Outcomes of the awaited calls inside one `saveLog` run:
the location environment, `new Date().toISOString()`, `Date.now()`,
whether the SQLite INSERT succeeds, and whether each of the two fetch
calls (metadata JSON, multipart video) succeeds. -/
structure SaveEnv where
  loc : LocationEnv
  timestamp : String
  nowMs : ℕ
  insertOk : Bool
  metadataOk : Bool
  mediaOk : Bool
deriving DecidableEq

/-- The three legs of the commit pipeline, in program order. -/
inductive Leg
  | localAppend
  | metadata
  | media
deriving DecidableEq

/-- Program order of the pipeline legs. -/
def legOrder : List Leg := [.localAppend, .metadata, .media]

/-- How one `saveLog` run ended, matching its return points:
missing-vlog alert, no-location abort, metadata-upload failure alert,
video-upload failure alert, or the final success alert. -/
inductive SaveResult
  | noVideo
  | noLocation
  | metadataFailed
  | mediaFailed
  | saved
deriving DecidableEq

/-- Everything observable about one `saveLog` run: the return point, the
component state afterwards, which legs were attempted in order, and
whether an insert error was merely written to the console. -/
structure SaveOutcome where
  result : SaveResult
  state : AppState
  attempts : List Leg
  insertErrorLogged : Bool
deriving DecidableEq

/-- Step 3 of `saveLog`: `if (!isWeb && db) { try { await db.runAsync(INSERT ...) }
catch (e) { console.log("Insert error:", e) } }`.  Returns the new handle,
whether the append leg was attempted, and whether an error was logged;
note that an insert failure is caught and the pipeline continues. -/
def insertPhase (st : AppState) (env : SaveEnv) (v : String) (loc : Coord) :
    Option LocalStore × List Leg × Bool :=
  match st.os, st.db with
  | .native, some d =>
    if env.insertOk then
      (some (d.insertLog env.timestamp st.mood v loc.lat loc.lng), [.localAppend], false)
    else
      (some d, [.localAppend], true)
  | _, _ => (st.db, [], false)

/-- Steps 4 and 5 of `saveLog`: the metadata fetch, then — only if it did
not throw — the video fetch; each catch block alerts and returns. -/
def uploadPhase (env : SaveEnv) : SaveResult × List Leg :=
  if env.metadataOk then
    if env.mediaOk then (.saved, [.metadata, .media])
    else (.mediaFailed, [.metadata, .media])
  else (.metadataFailed, [.metadata])

/-- `saveLog` from `src/app/_test/_index.js` (lines 168-256): require a
vlog, silently resolve a location (abort on `null`), build the new log
entry, prepend it to the capped on-screen list, write it to SQLite when
available, then run the two upload legs. -/
def saveLog (st : AppState) (env : SaveEnv) : SaveOutcome :=
  match st.videoUri with
  | none => ⟨.noVideo, st, [], false⟩
  | some v =>
    match (getLocationForSave st.os env.loc).result with
    | none => ⟨.noLocation, st, [], false⟩
    | some loc =>
      let newLog : LogRecord := ⟨env.nowMs, env.timestamp, st.mood, v, loc.lat, loc.lng⟩
      let logsView := (newLog :: st.logs).take 5
      let ins := insertPhase st env v loc
      let up := uploadPhase env
      ⟨up.1, { st with db := ins.1, logs := logsView }, ins.2.1 ++ up.2, ins.2.2⟩

/-- One entry of the `records` array of the export payload built in
`src/unnamed/part_001` (lines 240-246). -/
structure ExportRecordOut where
  timestamp : String
  mood : ℤ
  videoUri : String
  lat : ℚ
  lng : ℚ
deriving DecidableEq

/-- The export document built in `src/unnamed/part_001` (lines 236-247):
`exportedAt`, `device`, `count`, `records`. -/
structure ExportPayload where
  exportedAt : String
  device : String
  count : ℕ
  records : List ExportRecordOut
deriving DecidableEq

/-- `Platform.OS` as the string stored in the `device` field. -/
def osString : PlatformOS → String
  | .web => "web"
  | .native => "native"

/-- `(row) => ({ timestamp, mood, videoUri: row.videoUri || "", lat, lng })`
from `src/unnamed/part_001` lines 240-246; `row.videoUri || ""` maps a
falsy (empty) reference to the empty string. -/
def exportRowOut (row : LogRecord) : ExportRecordOut :=
  ⟨row.timestamp, row.mood, if row.videoUri = "" then "" else row.videoUri,
    row.lat, row.lng⟩

/-- The record-fields tuple `(timestamp, mood, videoRef-or-empty, lat, lng)`. -/
abbrev RecordFields := String × ℤ × String × ℚ × ℚ

/-- Projection of a stored row to its fields tuple (dropping the id). -/
def fieldsOf (r : LogRecord) : RecordFields :=
  (r.timestamp, r.mood, r.videoUri, r.lat, r.lng)

/-- Projection of an export entry to its fields tuple. -/
def outFields (r : ExportRecordOut) : RecordFields :=
  (r.timestamp, r.mood, r.videoUri, r.lat, r.lng)

/-- Step 1 of `exportLogsAsJson` in `src/unnamed/part_001` (lines
219-228): the rows to export are `SELECT * FROM logs ORDER BY id ASC`
on native with a database, and the reversed in-memory list otherwise. -/
def exportSource (os : PlatformOS) (db : Option LocalStore)
    (logs : List LogRecord) : List LogRecord :=
  match os, db with
  | .native, some d => d.allAsc
  | _, _ => logs.reverse

/-- `exportLogsAsJson` from `src/unnamed/part_001` (lines 217-282), up to
the point where the document is handed to the file/share collaborator:
read all rows, abort with the nothing-to-export alert when empty,
otherwise build the payload with the current instant `now`. -/
def exportLogsAsJson (os : PlatformOS) (db : Option LocalStore)
    (logs : List LogRecord) (now : String) : Option ExportPayload :=
  let allLogs := exportSource os db logs
  if allLogs.isEmpty then none
  else
    some { exportedAt := now, device := osString os, count := allLogs.length,
           records := allLogs.map exportRowOut }

/-- Zero-padded decimal digits of `n`, `width` characters wide. -/
def natDecimals (n : ℕ) (width : ℕ) : String :=
  let s := toString n
  String.mk (List.replicate (width - s.length) '0') ++ s

/-- Stable decimal rendering of a rational with up to six fractional
digits (the precision of every coordinate in the sources), modelling the
stable number formatting of `JSON.stringify`. -/
def ratToJsonNumber (q : ℚ) : String :=
  let sign := if q < 0 then "-" else ""
  let a : ℚ := |q|
  let ip : ℕ := (Rat.floor a).toNat
  let fr : ℕ := (Rat.floor ((a - (ip : ℚ)) * 1000000)).toNat
  if fr = 0 then sign ++ toString ip
  else
    let frs := natDecimals fr 6
    let trimmed := String.mk ((frs.toList.reverse.dropWhile (fun c => c = '0')).reverse)
    sign ++ toString ip ++ "." ++ trimmed

/-- Wrap a string in JSON quotes (no escaping needed for the field
values occurring here). -/
def quoteJson (s : String) : String := "\"" ++ s ++ "\""

/-- Separator between serialized array elements. -/
def commaSep : String := ", "

/-- Deterministic serialization of one record entry, fields in the
object-literal order of the source. -/
def serializeRecord (r : ExportRecordOut) : String :=
  "\x7b \"timestamp\": " ++ quoteJson r.timestamp ++
  ", \"mood\": " ++ toString r.mood ++
  ", \"videoUri\": " ++ quoteJson r.videoUri ++
  ", \"lat\": " ++ ratToJsonNumber r.lat ++
  ", \"lng\": " ++ ratToJsonNumber r.lng ++ " \x7d"

/-- Deterministic serialization of the export payload
(`JSON.stringify(payload, null, 2)` modulo whitespace): fields in the
object-literal order of the source. -/
def serializeExport (p : ExportPayload) : String :=
  "\x7b \"exportedAt\": " ++ quoteJson p.exportedAt ++
  ", \"device\": " ++ quoteJson p.device ++
  ", \"count\": " ++ toString p.count ++
  ", \"records\": [" ++ String.intercalate commaSep (p.records.map serializeRecord) ++
  "] \x7d"

/-- The mood values offered by the UI: the `[1, 2, 3, 4, 5].map(...)`
button row. -/
def moodOptions : List ℤ := [1, 2, 3, 4, 5]

/-- `useState(3)` — the initial draft mood. -/
def initialMood : ℤ := 3

/-- The `setMood` state setter: stores the given value, with no
validation or clamping anywhere in the sources. -/
def setMoodState (v : ℤ) (_cur : ℤ) : ℤ := v

/-- The mood state after a sequence of button presses, starting from the
initial mood. -/
def runMoodPresses (ps : List ℤ) : ℤ :=
  ps.foldl (fun cur v => setMoodState v cur) initialMood

/-- Operations a session can issue against the log table. -/
inductive StoreOp
  | appendOp (timestamp : String) (mood : ℤ) (videoUri : String) (lat lng : ℚ)
  | recentOp (limit : ℕ)
  | clearOp
deriving DecidableEq

/-- Effect of one operation on the table: an INSERT, a read-only
recent-view SELECT, or a DELETE-all. -/
def applyOp (s : LocalStore) : StoreOp → LocalStore
  | .appendOp t m v la ln => s.insertLog t m v la ln
  | .recentOp _ => s
  | .clearOp => s.clearAll

/-- Run a sequence of operations against the table. -/
def runOps (s : LocalStore) : List StoreOp → LocalStore
  | [] => s
  | op :: ops => runOps (applyOp s op) ops

/-- Whether an operation is a recent-view read. -/
def isRecentOp : StoreOp → Bool
  | .recentOp _ => true
  | _ => false

/-- The field tuples that should be in the table after running `ops`,
given that `acc` holds the tuples already present: appends accumulate in
order, recent-view reads change nothing, a clear drops everything. -/
def pendingAppends (acc : List RecordFields) : List StoreOp → List RecordFields
  | [] => acc
  | .appendOp t m v la ln :: ops => pendingAppends (acc ++ [(t, m, v, la, ln)]) ops
  | .recentOp _ :: ops => pendingAppends acc ops
  | .clearOp :: ops => pendingAppends [] ops

theorem runOps_spec (ops : List StoreOp) (s : LocalStore) (h : StoreWF s) :
    StoreWF (runOps s ops) ∧
      (runOps s ops).rows.map fieldsOf = pendingAppends (s.rows.map fieldsOf) ops := by
  induction ops generalizing s with
  | nil => exact ⟨h, rfl⟩
  | cons op ops ih =>
    cases op with
    | appendOp t m v la ln =>
      have h' := storeWF_insertLog s t m v la ln h
      obtain ⟨hwf, heq⟩ := ih (s.insertLog t m v la ln) h'
      refine ⟨hwf, ?_⟩
      rw [show runOps s (StoreOp.appendOp t m v la ln :: ops)
            = runOps (s.insertLog t m v la ln) ops from rfl]
      rw [heq]
      rw [show pendingAppends (s.rows.map fieldsOf) (StoreOp.appendOp t m v la ln :: ops)
            = pendingAppends (s.rows.map fieldsOf ++ [(t, m, v, la, ln)]) ops from rfl]
      congr 1
      simp [LocalStore.insertLog, fieldsOf]
    | recentOp limit =>
      obtain ⟨hwf, heq⟩ := ih s h
      exact ⟨hwf, heq⟩
    | clearOp =>
      obtain ⟨hwf, heq⟩ := ih s.clearAll (storeWF_clearAll s)
      refine ⟨hwf, ?_⟩
      rw [show runOps s (StoreOp.clearOp :: ops) = runOps s.clearAll ops from rfl]
      rw [heq]
      rfl

theorem runOps_filter_recent (ops : List StoreOp) (s : LocalStore) :
    runOps s ops = runOps s (ops.filter (fun op => !isRecentOp op)) := by
  induction ops generalizing s with
  | nil => rfl
  | cons op ops ih =>
    cases op with
    | appendOp t m v la ln =>
      simpa [runOps, List.filter, isRecentOp, applyOp] using ih (s.insertLog t m v la ln)
    | recentOp limit => simpa [runOps, List.filter, isRecentOp, applyOp] using ih s
    | clearOp => simpa [runOps, List.filter, isRecentOp, applyOp] using ih s.clearAll

/-- A concrete video reference, as in the example scenario of the design notes. -/
def clip1 : String := "clip1.mp4"

/-- A concrete commit instant. -/
def demoTimestamp : String := "2024-01-01T09:00:00.000Z"

/-- The fixed demo coordinates used by the web branch. -/
def taipei101 : Coord := ⟨25.033968, 121.564468⟩

/-- A location environment where permission is already granted and the
provider returns the demo coordinates. -/
def demoLocEnvGranted : LocationEnv := ⟨true, true, some taipei101⟩

/-- A save environment in which every awaited call succeeds. -/
def demoEnvOk : SaveEnv := ⟨demoLocEnvGranted, demoTimestamp, 1700000000000, true, true, true⟩

/-- A web session with mood 4 and a recorded clip, before any save. -/
def demoStateWeb : AppState := ⟨.web, none, 4, some clip1, []⟩

/-- A native session with a fresh database, mood 4 and a recorded clip. -/
def demoStateNative : AppState := ⟨.native, some LocalStore.init, 4, some clip1, []⟩

theorem insertPhase_attempts (st : AppState) (env : SaveEnv) (v : String) (loc : Coord) :
    (insertPhase st env v loc).2.1 = [] ∨
      (insertPhase st env v loc).2.1 = [Leg.localAppend] := by
  unfold insertPhase
  split
  · split
    · right; rfl
    · right; rfl
  · left; rfl

theorem uploadPhase_cases (env : SaveEnv) :
    (env.metadataOk = true ∧ (uploadPhase env).2 = [Leg.metadata, Leg.media]) ∨
      (env.metadataOk = false ∧ (uploadPhase env).2 = [Leg.metadata]) := by
  unfold uploadPhase
  cases h : env.metadataOk with
  | true =>
    left
    refine ⟨rfl, ?_⟩
    cases hm : env.mediaOk <;> simp [h, hm]
  | false =>
    right
    exact ⟨rfl, by simp [h]⟩

theorem saveLog_attempts_eq (st : AppState) (env : SaveEnv) (v : String)
    (loc : Coord) (hv : st.videoUri = some v)
    (hl : (getLocationForSave st.os env.loc).result = some loc) :
    (saveLog st env).attempts = (insertPhase st env v loc).2.1 ++ (uploadPhase env).2 := by
  unfold saveLog
  rw [hv, hl]

theorem saveLog_commit_eq (st : AppState) (env : SaveEnv) (v : String) (loc : Coord)
    (hv : st.videoUri = some v)
    (hl : (getLocationForSave st.os env.loc).result = some loc) :
    saveLog st env =
      ⟨(uploadPhase env).1,
       { st with db := (insertPhase st env v loc).1,
                 logs := ((⟨env.nowMs, env.timestamp, st.mood, v, loc.lat, loc.lng⟩ :
                   LogRecord) :: st.logs).take 5 },
       (insertPhase st env v loc).2.1 ++ (uploadPhase env).2,
       (insertPhase st env v loc).2.2⟩ := by
  unfold saveLog
  rw [hv, hl]

theorem insertPhase_native (st : AppState) (env : SaveEnv) (v : String) (loc : Coord)
    (d : LocalStore) (hos : st.os = .native) (hdb : st.db = some d) :
    insertPhase st env v loc =
      if env.insertOk then
        (some (d.insertLog env.timestamp st.mood v loc.lat loc.lng), [Leg.localAppend], false)
      else (some d, [Leg.localAppend], true) := by
  unfold insertPhase
  rw [hos, hdb]

theorem insertPhase_web (st : AppState) (env : SaveEnv) (v : String) (loc : Coord)
    (hos : st.os = .web) : insertPhase st env v loc = (st.db, [], false) := by
  unfold insertPhase
  rw [hos]

/-- Claim C1: within one commit-triggered `saveLog` run the attempted
legs always form a sublist of the program order local-append, metadata,
media; if the metadata leg fails the media leg is never attempted; and
the media leg is attempted only after a metadata attempt. -/
theorem saveLog_leg_ordering (st : AppState) (env : SaveEnv) :
    (saveLog st env).attempts.Sublist legOrder ∧
      (env.metadataOk = false → Leg.media ∉ (saveLog st env).attempts) ∧
      (Leg.media ∈ (saveLog st env).attempts → Leg.metadata ∈ (saveLog st env).attempts) := by
  cases hv : st.videoUri with
  | none =>
    unfold saveLog
    rw [hv]
    refine ⟨List.nil_sublist _, ?_, ?_⟩ <;> simp
  | some v =>
    cases hl : (getLocationForSave st.os env.loc).result with
    | none =>
      unfold saveLog
      rw [hv, hl]
      refine ⟨List.nil_sublist _, ?_, ?_⟩ <;> simp
    | some loc =>
      rw [saveLog_attempts_eq st env v loc hv hl]
      rcases insertPhase_attempts st env v loc with hi | hi <;>
        rcases uploadPhase_cases env with ⟨hm, hu⟩ | ⟨hm, hu⟩ <;>
          rw [hi, hu] <;> refine ⟨by decide, ?_, by decide⟩ <;> rw [hm] <;> simp

/-- Witness for claim C1: a concrete successful run on the web state
attempts the metadata leg and then the media leg, in order. -/
theorem saveLog_leg_ordering_witness :
    (saveLog demoStateWeb demoEnvOk).attempts.Sublist legOrder ∧
      (demoEnvOk.metadataOk = false → Leg.media ∉ (saveLog demoStateWeb demoEnvOk).attempts) ∧
      (Leg.media ∈ (saveLog demoStateWeb demoEnvOk).attempts →
        Leg.metadata ∈ (saveLog demoStateWeb demoEnvOk).attempts) :=
  saveLog_leg_ordering demoStateWeb demoEnvOk

/-- A web session with a mood but no recorded clip yet. -/
def demoStateNoVideo : AppState := ⟨.web, none, 4, none, []⟩

/-- Claim C2: in the strict variant a commit with a missing required
field (no video, or no resolvable location) is rejected at its precise
return point, stores nothing and leaves the whole session state exactly
as it was; and a commit from the same session after supplying the
missing video succeeds when the remaining legs succeed. -/
theorem saveLog_incomplete_record (st : AppState) (env : SaveEnv) :
    (st.videoUri = none → saveLog st env = ⟨.noVideo, st, [], false⟩) ∧
      (∀ v, st.videoUri = some v →
        (getLocationForSave st.os env.loc).result = none →
          saveLog st env = ⟨.noLocation, st, [], false⟩) ∧
      (∀ v loc, (getLocationForSave st.os env.loc).result = some loc →
        env.metadataOk = true → env.mediaOk = true →
          (saveLog { st with videoUri := some v } env).result = .saved) := by
  refine ⟨?_, ?_, ?_⟩
  · intro h
    unfold saveLog
    rw [h]
  · intro v hv hl
    unfold saveLog
    rw [hv, hl]
  · intro v loc hl hm hme
    have hv' : ({ st with videoUri := some v } : AppState).videoUri = some v := rfl
    have hl' : (getLocationForSave ({ st with videoUri := some v } : AppState).os
        env.loc).result = some loc := hl
    rw [saveLog_commit_eq _ env v loc hv' hl']
    simp [uploadPhase, hm, hme]

/-- Witness for claim C2: with no clip recorded the commit is rejected
and the session is untouched; the same session with a clip commits. -/
theorem saveLog_incomplete_record_witness :
    saveLog demoStateNoVideo demoEnvOk = ⟨.noVideo, demoStateNoVideo, [], false⟩ ∧
      (saveLog { demoStateNoVideo with videoUri := some clip1 } demoEnvOk).result = .saved :=
  ⟨(saveLog_incomplete_record demoStateNoVideo demoEnvOk).1 rfl,
   (saveLog_incomplete_record demoStateNoVideo demoEnvOk).2.2 clip1 taipei101
     rfl rfl rfl⟩

/-- Claim C3: once the local insert has succeeded for a commit, the
stored record is in the full read path of the new table, and the
database after the pipeline does not depend on whether either sync leg
failed — sync failures never remove or alter the locally persisted
record. -/
theorem saveLog_sync_failure_preserves_store (st : AppState) (env : SaveEnv)
    (d : LocalStore) (v : String) (loc : Coord)
    (hos : st.os = .native) (hdb : st.db = some d) (hv : st.videoUri = some v)
    (hl : (getLocationForSave st.os env.loc).result = some loc)
    (hins : env.insertOk = true) :
    (saveLog st env).state.db
        = some (d.insertLog env.timestamp st.mood v loc.lat loc.lng) ∧
      (⟨d.nextId, env.timestamp, st.mood, v, loc.lat, loc.lng⟩ : LogRecord)
        ∈ (d.insertLog env.timestamp st.mood v loc.lat loc.lng).allAsc ∧
      ∀ b₁ b₂ : Bool,
        (saveLog st { env with metadataOk := b₁, mediaOk := b₂ }).state.db
          = (saveLog st env).state.db := by
  have hmem : (⟨d.nextId, env.timestamp, st.mood, v, loc.lat, loc.lng⟩ : LogRecord)
      ∈ (d.insertLog env.timestamp st.mood v loc.lat loc.lng).rows := by
    simp [LocalStore.insertLog]
  refine ⟨?_, ?_, ?_⟩
  · rw [saveLog_commit_eq st env v loc hv hl]
    show (insertPhase st env v loc).1 = _
    rw [insertPhase_native st env v loc d hos hdb, if_pos hins]
  · rw [LocalStore.allAsc, sortAscById]
    exact (List.mem_insertionSort _).mpr hmem
  · intro b₁ b₂
    have hl' : (getLocationForSave st.os
        ({ env with metadataOk := b₁, mediaOk := b₂ } : SaveEnv).loc).result = some loc := hl
    rw [saveLog_commit_eq st env v loc hv hl,
      saveLog_commit_eq st { env with metadataOk := b₁, mediaOk := b₂ } v loc hv hl']
    rfl

/-- Witness for claim C3: a concrete native commit whose media leg
fails still leaves the record durably stored. -/
theorem saveLog_sync_failure_preserves_store_witness :
    (saveLog demoStateNative demoEnvOk).state.db
        = some (LocalStore.init.insertLog demoEnvOk.timestamp demoStateNative.mood clip1
            taipei101.lat taipei101.lng) ∧
      (⟨LocalStore.init.nextId, demoEnvOk.timestamp, demoStateNative.mood, clip1,
          taipei101.lat, taipei101.lng⟩ : LogRecord)
        ∈ (LocalStore.init.insertLog demoEnvOk.timestamp demoStateNative.mood clip1
            taipei101.lat taipei101.lng).allAsc ∧
      ∀ b₁ b₂ : Bool,
        (saveLog demoStateNative
            { demoEnvOk with metadataOk := b₁, mediaOk := b₂ }).state.db
          = (saveLog demoStateNative demoEnvOk).state.db :=
  saveLog_sync_failure_preserves_store demoStateNative demoEnvOk LocalStore.init clip1
    taipei101 rfl rfl rfl rfl rfl

/-- A save environment identical to the successful one except that the
SQLite INSERT throws. -/
def insertFailEnv : SaveEnv := { demoEnvOk with insertOk := false }

/-- Claim C4 counterexample: on a native session whose INSERT fails, the
pipeline still attempts both sync legs, reports the overall run as
saved, and the only trace of the persistence failure is a console log —
so the failure is neither reported to the caller nor does it abort the
commit.  Previously stored records are intact (the handle still holds
the prior table). -/
theorem saveLog_insert_failure_continues_cex :
    insertFailEnv.insertOk = false ∧
      (saveLog demoStateNative insertFailEnv).attempts
        = [Leg.localAppend, Leg.metadata, Leg.media] ∧
      (saveLog demoStateNative insertFailEnv).result = SaveResult.saved ∧
      (saveLog demoStateNative insertFailEnv).insertErrorLogged = true ∧
      (saveLog demoStateNative insertFailEnv).state.db = some LocalStore.init := by
  refine ⟨rfl, ?_, ?_, ?_, ?_⟩ <;> decide

/-- Claim C4 amended: when the local insert fails during a commit, the
error is caught and merely logged to the console, previously stored
records remain intact (the table is left exactly as it was), and the
pipeline continues to attempt the metadata sync leg. -/
theorem saveLog_insert_failure_swallowed (st : AppState) (env : SaveEnv)
    (d : LocalStore) (v : String) (loc : Coord)
    (hos : st.os = .native) (hdb : st.db = some d) (hv : st.videoUri = some v)
    (hl : (getLocationForSave st.os env.loc).result = some loc)
    (hins : env.insertOk = false) :
    (saveLog st env).insertErrorLogged = true ∧
      (saveLog st env).state.db = some d ∧
      Leg.metadata ∈ (saveLog st env).attempts := by
  rw [saveLog_commit_eq st env v loc hv hl]
  have hip : insertPhase st env v loc = (some d, [Leg.localAppend], true) := by
    rw [insertPhase_native st env v loc d hos hdb, if_neg]
    simp [hins]
  refine ⟨?_, ?_, ?_⟩
  · show (insertPhase st env v loc).2.2 = true
    rw [hip]
  · show (insertPhase st env v loc).1 = some d
    rw [hip]
  · show Leg.metadata ∈ (insertPhase st env v loc).2.1 ++ (uploadPhase env).2
    rw [hip]
    rcases uploadPhase_cases env with ⟨_, hu⟩ | ⟨_, hu⟩ <;> rw [hu] <;> simp

/-- Witness for the amended claim C4: the concrete failing-insert run. -/
theorem saveLog_insert_failure_swallowed_witness :
    (saveLog demoStateNative insertFailEnv).insertErrorLogged = true ∧
      (saveLog demoStateNative insertFailEnv).state.db = some LocalStore.init ∧
      Leg.metadata ∈ (saveLog demoStateNative insertFailEnv).attempts :=
  saveLog_insert_failure_swallowed demoStateNative insertFailEnv LocalStore.init clip1
    taipei101 rfl rfl rfl rfl rfl

/-- A short textual label for demo timestamps. -/
def tsLabel (n : ℕ) : String := toString n

/-- A concrete operation sequence: six appends interleaved with
recent-view reads, exceeding the recent-view cap of five. -/
def demoOps : List StoreOp :=
  [StoreOp.appendOp (tsLabel 1) 1 clip1 1 1, StoreOp.recentOp 5,
   StoreOp.appendOp (tsLabel 2) 2 clip1 2 2, StoreOp.appendOp (tsLabel 3) 3 clip1 3 3,
   StoreOp.appendOp (tsLabel 4) 4 clip1 4 4, StoreOp.recentOp 5,
   StoreOp.appendOp (tsLabel 5) 5 clip1 5 5, StoreOp.appendOp (tsLabel 6) 1 clip1 6 6]

/-- Claim C5: over any operation sequence against any well-formed
table, the full read path returns exactly the field tuples of the
records appended since the last clear (and, absent a clear, also all
records present before the session), in append order, in strictly
ascending id order, with no cap; recent-view reads have no effect on
the table at all. -/
theorem allAsc_append_order (s : LocalStore) (ops : List StoreOp) (h : StoreWF s) :
    ((runOps s ops).allAsc).map fieldsOf = pendingAppends (s.rows.map fieldsOf) ops ∧
      ((runOps s ops).allAsc).Pairwise (fun a b => a.id < b.id) ∧
      runOps s ops = runOps s (ops.filter (fun op => !isRecentOp op)) := by
  obtain ⟨hwf, heq⟩ := runOps_spec ops s h
  refine ⟨?_, ?_, runOps_filter_recent ops s⟩
  · rw [allAsc_of_wf _ hwf, heq]
  · rw [allAsc_of_wf _ hwf]
    exact hwf.1

/-- Witness for claim C5: running the demo sequence from a fresh table
yields all six appended tuples, not capped at the recent-view size. -/
theorem allAsc_append_order_witness :
    StoreWF LocalStore.init ∧
      ((runOps LocalStore.init demoOps).allAsc).map fieldsOf
        = pendingAppends (LocalStore.init.rows.map fieldsOf) demoOps ∧
      ((runOps LocalStore.init demoOps).allAsc).length = 6 :=
  ⟨storeWF_init, (allAsc_append_order LocalStore.init demoOps storeWF_init).1, by decide⟩

/-- Claim C6: the recent view returns at most five rows; reading it
right after an append returns the appended record first; and once the
table holds at least five rows it returns exactly the five most
recently appended rows, newest first. -/
theorem recentDesc_spec (s : LocalStore) (t : String) (m : ℤ) (v : String)
    (la ln : ℚ) (h : StoreWF s) :
    (s.recentDesc 5).length ≤ 5 ∧
      (s.insertLog t m v la ln).recentDesc 5
        = (⟨s.nextId, t, m, v, la, ln⟩ : LogRecord) :: s.rows.reverse.take 4 ∧
      (5 ≤ s.rows.length →
        s.recentDesc 5 = s.rows.reverse.take 5 ∧ (s.recentDesc 5).length = 5) := by
  refine ⟨?_, ?_, ?_⟩
  · rw [LocalStore.recentDesc]
    exact List.length_take_le 5 _
  · rw [recentDesc_of_wf _ 5 (storeWF_insertLog s t m v la ln h)]
    have hrows : (s.insertLog t m v la ln).rows
        = s.rows ++ [⟨s.nextId, t, m, v, la, ln⟩] := rfl
    rw [hrows, List.reverse_append]
    rfl
  · intro hlen
    rw [recentDesc_of_wf _ 5 h]
    refine ⟨rfl, ?_⟩
    rw [List.length_take, List.length_reverse]
    omega

/-- A concrete table holding six records. -/
def demoStore6 : LocalStore := runOps LocalStore.init demoOps

/-- Witness for claim C6: appending a seventh record to the six-record
demo table puts it at the head of the recent view, which stays at five
entries. -/
theorem recentDesc_spec_witness :
    StoreWF demoStore6 ∧
      ((demoStore6.recentDesc 5).length ≤ 5 ∧
        (demoStore6.insertLog (tsLabel 7) 2 clip1 7 7).recentDesc 5
          = (⟨demoStore6.nextId, tsLabel 7, 2, clip1, 7, 7⟩ : LogRecord)
              :: demoStore6.rows.reverse.take 4 ∧
        (5 ≤ demoStore6.rows.length →
          demoStore6.recentDesc 5 = demoStore6.rows.reverse.take 5 ∧
            (demoStore6.recentDesc 5).length = 5)) :=
  ⟨(runOps_spec demoOps LocalStore.init storeWF_init).1,
   recentDesc_spec demoStore6 (tsLabel 7) 2 clip1 7 7
     (runOps_spec demoOps LocalStore.init storeWF_init).1⟩

theorem exportLogsAsJson_eq (os : PlatformOS) (db : Option LocalStore)
    (logs : List LogRecord) (now : String) :
    exportLogsAsJson os db logs now =
      if (exportSource os db logs).isEmpty then none
      else
        some { exportedAt := now, device := osString os,
               count := (exportSource os db logs).length,
               records := (exportSource os db logs).map exportRowOut } := rfl

theorem outFields_exportRowOut (r : LogRecord) : outFields (exportRowOut r) = fieldsOf r := by
  rw [outFields, exportRowOut, fieldsOf]
  by_cases hv : r.videoUri = "" <;> simp [hv]

/-- Claim C7: export over a native database aborts and produces no
document when the table is empty; on a table of N records it produces a
document carrying the export instant, a count field equal to N, and a
records list that reconstructs the (timestamp, mood, videoRef-or-empty,
lat, lng) tuples of the full read path in the same order. -/
theorem exportLogsAsJson_spec (d : LocalStore) (logs : List LogRecord) (now : String) :
    (d.rows = [] → exportLogsAsJson .native (some d) logs now = none) ∧
      (d.rows ≠ [] → ∃ p, exportLogsAsJson .native (some d) logs now = some p ∧
        p.exportedAt = now ∧ p.count = d.allAsc.length ∧
        p.records.map outFields = d.allAsc.map fieldsOf) := by
  have hsrc : exportSource .native (some d) logs = d.allAsc := rfl
  have hlen : d.allAsc.length = d.rows.length := List.length_insertionSort _ _
  constructor
  · intro h
    have hempty : d.allAsc.isEmpty = true := by
      rw [List.isEmpty_iff, ← List.length_eq_zero, hlen, h]
      rfl
    rw [exportLogsAsJson_eq, hsrc, hempty]
    rfl
  · intro h
    have hne : d.allAsc.isEmpty = false := by
      rw [Bool.eq_false_iff]
      intro hcontra
      rw [List.isEmpty_iff, ← List.length_eq_zero, hlen, List.length_eq_zero] at hcontra
      exact h hcontra
    rw [exportLogsAsJson_eq, hsrc, hne]
    refine ⟨_, rfl, rfl, rfl, ?_⟩
    rw [List.map_map]
    exact List.map_congr_left (fun a _ => outFields_exportRowOut a)

/-- Witness for claim C7: exporting the six-record demo table produces
a document with count six whose records match the full read path. -/
theorem exportLogsAsJson_spec_witness :
    (∃ p, exportLogsAsJson .native (some demoStore6) [] demoTimestamp = some p ∧
      p.exportedAt = demoTimestamp ∧ p.count = demoStore6.allAsc.length ∧
      p.records.map outFields = demoStore6.allAsc.map fieldsOf) ∧
      demoStore6.allAsc.length = 6 :=
  ⟨(exportLogsAsJson_spec demoStore6 [] demoTimestamp).2 (by decide), by decide⟩

/-- A first export instant. -/
def exportTimeA : String := "2024-01-01T00:00:00.000Z"

/-- A second, later export instant. -/
def exportTimeB : String := "2024-01-02T00:00:00.000Z"

/-- Claim C8 counterexample: two invocations of the export routine over
the identical record list but at different instants produce different
serialized documents, because the payload embeds `exportedAt`, the
clock reading of the invocation itself. -/
theorem export_not_input_deterministic_cex :
    exportTimeA ≠ exportTimeB ∧
      (exportLogsAsJson .native (some demoStore6) [] exportTimeA).map serializeExport
        ≠ (exportLogsAsJson .native (some demoStore6) [] exportTimeB).map serializeExport := by
  refine ⟨by decide, by decide⟩

/-- Claim C8 amended: serialization is deterministic given the input
records and the export instant: the count and the serialized records
list depend only on the stored records, and two invocations with the
same clock reading produce the identical serialized document; only the
embedded `exportedAt` field varies between invocations. -/
theorem export_deterministic_given_instant (os : PlatformOS) (db : Option LocalStore)
    (logs : List LogRecord) (t₁ t₂ : String) :
    (exportLogsAsJson os db logs t₁).map (fun p => p.count)
        = (exportLogsAsJson os db logs t₂).map (fun p => p.count) ∧
      (exportLogsAsJson os db logs t₁).map (fun p => p.records.map serializeRecord)
        = (exportLogsAsJson os db logs t₂).map (fun p => p.records.map serializeRecord) ∧
      (t₁ = t₂ →
        (exportLogsAsJson os db logs t₁).map serializeExport
          = (exportLogsAsJson os db logs t₂).map serializeExport) := by
  rw [exportLogsAsJson_eq os db logs t₁, exportLogsAsJson_eq os db logs t₂]
  cases hE : (exportSource os db logs).isEmpty
  · exact ⟨rfl, rfl, fun h => by rw [h]⟩
  · exact ⟨rfl, rfl, fun h => by rw [h]⟩

/-- Witness for the amended claim C8: two exports of the demo table at
the same instant serialize identically. -/
theorem export_deterministic_given_instant_witness :
    (exportLogsAsJson .native (some demoStore6) [] exportTimeA).map serializeExport
      = (exportLogsAsJson .native (some demoStore6) [] exportTimeA).map serializeExport :=
  (export_deterministic_given_instant .native (some demoStore6) [] exportTimeA
    exportTimeA).2.2 rfl

/-- Claim C9 counterexample: the `setMood` setter performs no
validation: invoked with the out-of-range value 7 (not among the values
the UI offers) it stores 7, which lies outside [1,5] — the setter
neither rejects nor clamps out-of-range values. -/
theorem setMood_no_validation_cex :
    (7 : ℤ) ∉ moodOptions ∧ setMoodState 7 initialMood = 7 ∧
      ¬ (1 ≤ setMoodState 7 initialMood ∧ setMoodState 7 initialMood ≤ 5) := by
  refine ⟨by decide, rfl, by decide⟩

theorem foldl_setMood_range (ps : List ℤ) (i : ℤ) (hi : 1 ≤ i ∧ i ≤ 5)
    (h : ∀ v ∈ ps, v ∈ moodOptions) :
    1 ≤ ps.foldl (fun cur v => setMoodState v cur) i ∧
      ps.foldl (fun cur v => setMoodState v cur) i ≤ 5 := by
  induction ps generalizing i with
  | nil => exact hi
  | cons v ps ih =>
    apply ih
    · have hv := h v (List.mem_cons_self v ps)
      have hrange : (1 : ℤ) ≤ v ∧ v ≤ 5 := by
        rw [moodOptions] at hv
        simp only [List.mem_cons, List.not_mem_nil, or_false] at hv
        rcases hv with h1 | h1 | h1 | h1 | h1 <;> rw [h1] <;> exact ⟨by decide, by decide⟩
      exact hrange
    · intro w hw
      exact h w (List.mem_cons_of_mem v hw)

/-- Claim C9 amended: `setMood` stores its argument unvalidated, but
the UI only invokes it with the offered values 1..5 and the initial
mood is 3, so every reachable draft mood lies in [1,5]; and the commit
pipeline copies the draft mood into the committed record unchanged
(every entry of the post-save list is either pre-existing or carries
the session mood), so records committed from reachable sessions also
have mood in [1,5]. -/
theorem mood_reachable_in_range (ps : List ℤ) (h : ∀ v ∈ ps, v ∈ moodOptions)
    (st : AppState) (env : SaveEnv) :
    (1 ≤ runMoodPresses ps ∧ runMoodPresses ps ≤ 5) ∧
      (∀ r ∈ (saveLog st env).state.logs, r ∈ st.logs ∨ r.mood = st.mood) := by
  constructor
  · exact foldl_setMood_range ps initialMood ⟨by decide, by decide⟩ h
  · intro r hr
    cases hv : st.videoUri with
    | none =>
      unfold saveLog at hr
      rw [hv] at hr
      exact Or.inl hr
    | some v =>
      cases hl : (getLocationForSave st.os env.loc).result with
      | none =>
        unfold saveLog at hr
        rw [hv, hl] at hr
        exact Or.inl hr
      | some loc =>
        rw [saveLog_commit_eq st env v loc hv hl] at hr
        have hr' := List.take_subset 5 _ hr
        rcases List.mem_cons.mp hr' with h1 | h1
        · right
          rw [h1]
        · exact Or.inl h1

/-- A concrete press sequence on the mood buttons. -/
def demoPresses : List ℤ := [5, 2]

/-- Witness for the amended claim C9: the concrete press sequence ends
in range and the concrete save only adds records carrying the session
mood. -/
theorem mood_reachable_in_range_witness :
    (1 ≤ runMoodPresses demoPresses ∧ runMoodPresses demoPresses ≤ 5) ∧
      (∀ r ∈ (saveLog demoStateWeb demoEnvOk).state.logs,
        r ∈ demoStateWeb.logs ∨ r.mood = demoStateWeb.mood) :=
  mood_reachable_in_range demoPresses (by decide) demoStateWeb demoEnvOk

/-- Claim C10: on the web platform, location resolution never fails,
never requests permission, and always returns exactly the fixed
coordinates 25.033968 / 121.564468; consequently every web commit that
passes the video precondition proceeds with exactly these constants
(the record it prepends carries them) and touches no database. -/
theorem web_location_constant (env : LocationEnv) (st : AppState) (senv : SaveEnv)
    (v : String) (hos : st.os = .web) (hv : st.videoUri = some v) :
    getLocationForSave .web env = ⟨some ⟨25.033968, 121.564468⟩, false⟩ ∧
      (saveLog st senv).state.logs.head?
        = some ⟨senv.nowMs, senv.timestamp, st.mood, v, 25.033968, 121.564468⟩ ∧
      (saveLog st senv).state.db = st.db := by
  have hl : (getLocationForSave st.os senv.loc).result
      = some ⟨25.033968, 121.564468⟩ := by
    rw [hos]
    rfl
  refine ⟨rfl, ?_, ?_⟩
  · rw [saveLog_commit_eq st senv v _ hv hl]
    rfl
  · rw [saveLog_commit_eq st senv v _ hv hl]
    show (insertPhase st senv v _).1 = st.db
    rw [insertPhase_web st senv v _ hos]

/-- Witness for claim C10: the concrete web save stores the fixed
coordinates. -/
theorem web_location_constant_witness :
    getLocationForSave .web demoLocEnvGranted = ⟨some ⟨25.033968, 121.564468⟩, false⟩ ∧
      (saveLog demoStateWeb demoEnvOk).state.logs.head?
        = some ⟨demoEnvOk.nowMs, demoEnvOk.timestamp, demoStateWeb.mood, clip1,
            25.033968, 121.564468⟩ ∧
      (saveLog demoStateWeb demoEnvOk).state.db = demoStateWeb.db :=
  web_location_constant demoLocEnvGranted demoStateWeb demoEnvOk clip1 rfl rfl

end Emogo
